import Mathlib

set_option maxHeartbeats 1000000
set_option maxRecDepth 4000

/-!
Verification development for a Monkey-language front end (lexer in
src/ast/ast.go, package lexer; parser in src/parser/parser.go, package
parser).  Source bytes are modelled as `Char` (the spec scopes input to
ASCII text); Go strings become `List Char`; Go's nil results become
`Option`.  Loops are modelled with an explicit fuel argument: each fuel
unit is one iteration of the corresponding Go loop, and the fuel passed
at each call site is the bound `input.length + 1 - readPosition`, which
dominates the iteration count of every lexer loop because every
iteration calls readChar (readPosition + 1) and each loop guard rejects
the NUL sentinel.  Parser-level loops, whose iteration counts are not
locally bounded, keep fuel as a parameter and return `none` when the
fuel is exhausted, i.e. when the Go loop is still running.
-/

namespace monkey

/-- The NUL sentinel byte (`l.ch = 0` in readChar, src/ast/ast.go). -/
def nulChar : Char := Char.ofNat 0

/-- Modelled from the spec: the token package is not under src/; §3 gives
the closed enumeration of token kinds (monkey/token, TokenType). -/
inductive TokenType where
  | ILLEGAL
  | EOF
  | IDENT
  | INT
  | ASSIGN
  | PLUS
  | MINUS
  | BANG
  | COMMA
  | SEMICOLON
  | LPAREN
  | RPAREN
  | LBRACE
  | RBRACE
  | LET
  | RETURN
  | FUNCTION
  | TRUE
  | FALSE
  | IF
  | ELSE
deriving DecidableEq

/-- Modelled from the spec: token.Token is `{kind, literal}` (§3); the
field Type is renamed `type` only because `Type` is a Lean keyword. -/
structure Token where
  type : TokenType
  literal : List Char
deriving DecidableEq

/-- Modelled from the spec: the token package's LookupIdent with the §8
keyword table (let, return, fn, true, false, if, else); any other
identifier classifies as IDENT. -/
def LookupIdent (ident : List Char) : TokenType :=
  if ident = "let".data then TokenType.LET
  else if ident = "return".data then TokenType.RETURN
  else if ident = "fn".data then TokenType.FUNCTION
  else if ident = "true".data then TokenType.TRUE
  else if ident = "false".data then TokenType.FALSE
  else if ident = "if".data then TokenType.IF
  else if ident = "else".data then TokenType.ELSE
  else TokenType.IDENT

/-- Lexer state (src/ast/ast.go, package lexer, struct Lexer). -/
structure Lexer where
  input : List Char
  position : Nat
  readPosition : Nat
  ch : Char
deriving DecidableEq

/-- readChar (src/ast/ast.go): load input[readPosition] or the NUL
sentinel, shift position to readPosition, advance readPosition. -/
def Lexer.readChar (l : Lexer) : Lexer :=
  { l with
    ch := if l.input.length ≤ l.readPosition then nulChar
          else l.input.getD l.readPosition nulChar,
    position := l.readPosition,
    readPosition := l.readPosition + 1 }

/-- lexer.New (src/ast/ast.go): zero-initialized Lexer, then one readChar. -/
def Lexer.New (input : List Char) : Lexer :=
  Lexer.readChar { input := input, position := 0, readPosition := 0, ch := nulChar }

/-- isLetter (src/ast/ast.go); Go compares bytes numerically. -/
def isLetter (ch : Char) : Bool :=
  (decide (Char.toNat 'a' ≤ ch.toNat) && decide (ch.toNat ≤ Char.toNat 'z'))
  || (decide (Char.toNat 'A' ≤ ch.toNat) && decide (ch.toNat ≤ Char.toNat 'Z'))
  || ch == '_'

/-- isDigit (src/ast/ast.go). -/
def isDigit (ch : Char) : Bool :=
  decide (Char.toNat '0' ≤ ch.toNat) && decide (ch.toNat ≤ Char.toNat '9')

/-- The whitespace test inlined in skipWhitespace (src/ast/ast.go). -/
def isWhitespaceCh (ch : Char) : Bool :=
  ch == ' ' || ch == '\t' || ch == '\n' || ch == '\r'

/-- The common shape of the three lexer loops (skipWhitespace,
readIdentifier, readNumber): `for p(l.ch) { l.readChar() }`, with fuel
counting the remaining permitted iterations.  All three predicates
reject the NUL sentinel, so fuel `input.length + 1 - readPosition`
(supplied at each call site) is never exhausted on states readChar
produces. -/
def readWhileGo (p : Char → Bool) : Nat → Lexer → Lexer
  | 0, l => l
  | fuel + 1, l => if p l.ch then readWhileGo p fuel l.readChar else l

/-- skipWhitespace (src/ast/ast.go). -/
def Lexer.skipWhitespace (l : Lexer) : Lexer :=
  readWhileGo isWhitespaceCh (l.input.length + 1 - l.readPosition) l

/-- readIdentifier (src/ast/ast.go): remember position, scan letters,
return input[position:l.position] and the moved lexer. -/
def Lexer.readIdentifier (l : Lexer) : List Char × Lexer :=
  let position := l.position
  let l2 := readWhileGo isLetter (l.input.length + 1 - l.readPosition) l
  ((l.input.drop position).take (l2.position - position), l2)

/-- readNumber (src/ast/ast.go). -/
def Lexer.readNumber (l : Lexer) : List Char × Lexer :=
  let position := l.position
  let l2 := readWhileGo isDigit (l.input.length + 1 - l.readPosition) l
  ((l.input.drop position).take (l2.position - position), l2)

/-- newToken (src/ast/ast.go): a one-byte literal. -/
def newToken (tokenType : TokenType) (ch : Char) : Token :=
  { type := tokenType, literal := [ch] }

/-- The switch statement of NextToken (src/ast/ast.go), applied after
skipWhitespace; factored out so lemmas can hypothesize on the
post-whitespace state. -/
def nextTokenAt (l : Lexer) : Token × Lexer :=
  if l.ch = '=' then (newToken TokenType.ASSIGN l.ch, l.readChar)
  else if l.ch = ';' then (newToken TokenType.SEMICOLON l.ch, l.readChar)
  else if l.ch = '(' then (newToken TokenType.LPAREN l.ch, l.readChar)
  else if l.ch = ')' then (newToken TokenType.RPAREN l.ch, l.readChar)
  else if l.ch = ',' then (newToken TokenType.COMMA l.ch, l.readChar)
  else if l.ch = '+' then (newToken TokenType.PLUS l.ch, l.readChar)
  else if l.ch = '{' then (newToken TokenType.LBRACE l.ch, l.readChar)
  else if l.ch = '}' then (newToken TokenType.RBRACE l.ch, l.readChar)
  else if l.ch = nulChar then ({ type := TokenType.EOF, literal := [] }, l.readChar)
  else if isLetter l.ch then
    let r := l.readIdentifier
    ({ type := LookupIdent r.1, literal := r.1 }, r.2)
  else if isDigit l.ch then
    let r := l.readNumber
    ({ type := TokenType.INT, literal := r.1 }, r.2)
  else (newToken TokenType.ILLEGAL l.ch, l.readChar)

/-- NextToken (src/ast/ast.go): skipWhitespace, then classify. -/
def Lexer.NextToken (l : Lexer) : Token × Lexer :=
  nextTokenAt l.skipWhitespace

/-- The lexer state after n calls to NextToken. -/
def lexState (l : Lexer) : Nat → Lexer
  | 0 => l
  | n + 1 => ((lexState l n).NextToken).2

/-- The (n+1)-th token NextToken returns (0-indexed). -/
def nthTok (l : Lexer) (n : Nat) : Token :=
  ((lexState l n).NextToken).1

/-- The first n tokens of the stream. -/
def takeTokens : Nat → Lexer → List Token
  | 0, _ => []
  | n + 1, l => (l.NextToken).1 :: takeTokens n (l.NextToken).2

/-- AST expressions.  src/ast/ast.go defines Identifier; the
IntegerLiteral and PrefixExpression node shapes are modelled from the
spec (§3: `IntegerLiteral {token, value: 64-bit signed integer}`,
`PrefixExpression {token, operator, right}`), since their ast.go
declarations are not under src/.  Constructors: ident = ast.Identifier,
intLit = ast.IntegerLiteral, preOp = ast.PrefixExpression; nilExp is
Go's nil Expression interface value (what parseExpression returns on
failure, and what unassigned Expression fields hold). -/
inductive Expression where
  | ident (token : Token) (value : List Char)
  | intLit (token : Token) (value : Int)
  | preOp (token : Token) (operator : List Char) (right : Expression)
  | nilExp
deriving DecidableEq

/-- AST statements.  src/ast/ast.go defines LetStatement (Token, Name,
Value); ReturnStatement and ExpressionStatement are modelled from the
spec (§3), their ast.go declarations not being under src/.  The name in
letStmt is the (token, value) pair of its ast.Identifier; the
Expression-typed fields hold nilExp whenever the parser leaves them
unassigned, exactly as the Go structs hold nil. -/
inductive Statement where
  | letStmt (token : Token) (name : Token × List Char) (value : Expression)
  | returnStmt (token : Token) (returnValue : Expression)
  | exprStmt (token : Token) (expression : Expression)
deriving DecidableEq

/-- ast.Program (src/ast/ast.go): the root node, a statement sequence. -/
structure Program where
  Statements : List Statement
deriving DecidableEq

/-- Operator precedences (src/parser/parser.go const block, iota from 1). -/
def LOWEST : Nat := 1

def EQUALS : Nat := 2

def LESSGREATER : Nat := 3

def SUM : Nat := 4

def PRODUCT : Nat := 5

def PREFIX : Nat := 6

def CALL : Nat := 7

/-- Parser state (src/parser/parser.go struct Parser).  The
prefixParseFns registry is not a field here: parser.New always registers
the same four handlers, so the registry is embedded as the fixed lookup
`prefixParseFns` below (the infixParseFns map is declared in the source
but never initialized or consulted). -/
structure Parser where
  l : Lexer
  errors : List (List Char)
  curToken : Token
  peekToken : Token
deriving DecidableEq

/-- nextToken (src/parser/parser.go): shift peek into cur, pull one
token from the lexer. -/
def Parser.nextToken (p : Parser) : Parser :=
  { p with
    curToken := p.peekToken,
    peekToken := (p.l.NextToken).1,
    l := (p.l.NextToken).2 }

/-- parser.New (src/parser/parser.go): empty error list, then two
priming nextToken calls.  Go's zero-value Token (empty string kind) is
rendered as an ILLEGAL/empty token; both priming calls overwrite it
before any use. -/
def Parser.New (l : Lexer) : Parser :=
  (Parser.nextToken (Parser.nextToken
    { l := l, errors := [],
      curToken := { type := TokenType.ILLEGAL, literal := [] },
      peekToken := { type := TokenType.ILLEGAL, literal := [] } }))

/-- Errors (src/parser/parser.go). -/
def Parser.Errors (p : Parser) : List (List Char) :=
  p.errors

/-- Modelled from the spec: rendering of a TokenType with fmt's %s.
The token package under which the TokenType string values live is not
under src/; the spec (§3, §7) writes kinds by their enumeration names. -/
def TokenType.goString : TokenType → List Char
  | TokenType.ILLEGAL => "ILLEGAL".data
  | TokenType.EOF => "EOF".data
  | TokenType.IDENT => "IDENT".data
  | TokenType.INT => "INT".data
  | TokenType.ASSIGN => "ASSIGN".data
  | TokenType.PLUS => "PLUS".data
  | TokenType.MINUS => "MINUS".data
  | TokenType.BANG => "BANG".data
  | TokenType.COMMA => "COMMA".data
  | TokenType.SEMICOLON => "SEMICOLON".data
  | TokenType.LPAREN => "LPAREN".data
  | TokenType.RPAREN => "RPAREN".data
  | TokenType.LBRACE => "LBRACE".data
  | TokenType.RBRACE => "RBRACE".data
  | TokenType.LET => "LET".data
  | TokenType.RETURN => "RETURN".data
  | TokenType.FUNCTION => "FUNCTION".data
  | TokenType.TRUE => "TRUE".data
  | TokenType.FALSE => "FALSE".data
  | TokenType.IF => "IF".data
  | TokenType.ELSE => "ELSE".data

/-- The message peekError formats (src/parser/parser.go). -/
def peekErrorMsg (t actual : TokenType) : List Char :=
  "expected next token to be ".data ++ TokenType.goString t
    ++ ", got ".data ++ TokenType.goString actual ++ " instead".data

/-- peekError (src/parser/parser.go): append one diagnostic. -/
def Parser.peekError (p : Parser) (t : TokenType) : Parser :=
  { p with errors := p.errors ++ [peekErrorMsg t p.peekToken.type] }

/-- curTokenIs (src/parser/parser.go). -/
def Parser.curTokenIs (p : Parser) (t : TokenType) : Bool :=
  p.curToken.type == t

/-- peekTokenIs (src/parser/parser.go). -/
def Parser.peekTokenIs (p : Parser) (t : TokenType) : Bool :=
  p.peekToken.type == t

/-- expectPeek (src/parser/parser.go): advance on match, otherwise
record a peek error, returning the Go boolean alongside the state. -/
def Parser.expectPeek (p : Parser) (t : TokenType) : Bool × Parser :=
  if p.peekTokenIs t then (true, p.nextToken)
  else (false, p.peekError t)

/-- The message noPrefixParseFnError formats (src/parser/parser.go). -/
def noPrefixMsg (t : TokenType) : List Char :=
  "no prefix parse function for ".data ++ TokenType.goString t ++ " found".data

/-- noPrefixParseFnError (src/parser/parser.go). -/
def Parser.noPrefixParseFnError (p : Parser) (t : TokenType) : Parser :=
  { p with errors := p.errors ++ [noPrefixMsg t] }

/-- Numeric value of an ASCII digit byte. -/
def charVal (c : Char) : Nat :=
  c.toNat - Char.toNat '0'

/-- Digit accumulation of Go's strconv.ParseUint on digit bytes: none as
soon as a digit is not valid in the base. -/
def digitsVal (base : Nat) : List Char → Nat → Option Nat
  | [], acc => some acc
  | c :: rest, acc =>
    if charVal c < base then digitsVal base rest (base * acc + charVal c) else none

/-- Modelled Go stdlib semantics: strconv.ParseInt(s, 0, 64) restricted
to the literals an INT token of this lexer can carry (readNumber yields
exactly nonempty runs of ASCII digits: no sign, no 0x/0o/0b prefix, no
underscores).  With base argument 0 the base is inferred from the
string: a leading '0' followed by further digits selects base 8 (so a
digit 8 or 9 there is a syntax error), otherwise base 10; the resulting
magnitude must fit in a signed 64-bit integer. -/
def parseIntGoBase0 (s : List Char) : Option Int :=
  if s.isEmpty then none
  else if s.all isDigit then
    match s with
    | [] => none
    | c :: rest =>
      if c = '0' then
        if rest.isEmpty then some 0
        else (digitsVal 8 rest 0).bind
          (fun v => if v ≤ 2 ^ 63 - 1 then some (Int.ofNat v) else none)
      else
        (digitsVal 10 (c :: rest) 0).bind
          (fun v => if v ≤ 2 ^ 63 - 1 then some (Int.ofNat v) else none)
  else none

/-- The message parseIntegerLiteral formats on failure
(src/parser/parser.go); %q wraps the literal in double quotes. -/
def couldNotParseMsg (lit : List Char) : List Char :=
  "could not parse \"".data ++ lit ++ "\" as integer".data

/-- parseIdentifier (src/parser/parser.go): no token advance. -/
def Parser.parseIdentifier (p : Parser) : Expression × Parser :=
  (Expression.ident p.curToken p.curToken.literal, p)

/-- parseIntegerLiteral (src/parser/parser.go): strconv.ParseInt with
base argument 0 and bit size 64; on error, record the diagnostic and
yield no node. -/
def Parser.parseIntegerLiteral (p : Parser) : Expression × Parser :=
  match parseIntGoBase0 p.curToken.literal with
  | some value => (Expression.intLit p.curToken value, p)
  | none =>
    (Expression.nilExp, { p with errors := p.errors ++ [couldNotParseMsg p.curToken.literal] })

/-- Tags for the registered prefix handlers (the values stored in the
prefixParseFns map built by parser.New). -/
inductive PrefixFn where
  | identFn
  | intFn
  | preFn
deriving DecidableEq

/-- The prefixParseFns registry built in parser.New
(src/parser/parser.go): IDENT and INT to their literal parsers, BANG
and MINUS to parsePrefixExpression; every other kind has no handler. -/
def prefixParseFns : TokenType → Option PrefixFn
  | TokenType.IDENT => some PrefixFn.identFn
  | TokenType.INT => some PrefixFn.intFn
  | TokenType.BANG => some PrefixFn.preFn
  | TokenType.MINUS => some PrefixFn.preFn
  | _ => none

/-- parseExpression (src/parser/parser.go) with the body of
parsePrefixExpression inlined at the preFn tag (the mutual recursion of
the Go source, structurally bounded here by fuel: each recursive call
follows one nextToken).  The precedence argument is received and passed
on exactly as in the source, which does not otherwise consult it. -/
def parseExpressionF : Nat → Nat → Parser → Option (Expression × Parser)
  | 0, _, _ => none
  | fuel + 1, _precedence, p =>
    match prefixParseFns p.curToken.type with
    | none => some (Expression.nilExp, p.noPrefixParseFnError p.curToken.type)
    | some PrefixFn.identFn => some p.parseIdentifier
    | some PrefixFn.intFn => some p.parseIntegerLiteral
    | some PrefixFn.preFn =>
      (parseExpressionF fuel PREFIX p.nextToken).map
        (fun r => (Expression.preOp p.curToken p.curToken.literal r.1, r.2))

/-- The skip-to-semicolon placeholder loop shared by parseLetStatement
and parseReturnStatement (src/parser/parser.go):
`for !p.curTokenIs(SEMICOLON) { p.nextToken() }`;
none means the fuel ran out with the Go loop still running. -/
def skipToSemicolonF : Nat → Parser → Option Parser
  | 0, p => if p.curTokenIs TokenType.SEMICOLON then some p else none
  | fuel + 1, p =>
    if p.curTokenIs TokenType.SEMICOLON then some p
    else skipToSemicolonF fuel p.nextToken

/-- parseLetStatement (src/parser/parser.go): LET token, expectPeek
IDENT, bind the name, expectPeek ASSIGN, then skip to the semicolon;
a failed expectPeek yields the nil statement (inner none). -/
def parseLetStatementF (fuel : Nat) (p : Parser) : Option (Option Statement × Parser) :=
  let stmtToken := p.curToken
  match p.expectPeek TokenType.IDENT with
  | (false, p1) => some (none, p1)
  | (true, p1) =>
    let name := (p1.curToken, p1.curToken.literal)
    match p1.expectPeek TokenType.ASSIGN with
    | (false, p2) => some (none, p2)
    | (true, p2) =>
      match skipToSemicolonF fuel p2 with
      | none => none
      | some p3 => some (some (Statement.letStmt stmtToken name Expression.nilExp), p3)

/-- parseReturnStatement (src/parser/parser.go): RETURN token, one
nextToken, then skip to the semicolon; always yields a statement. -/
def parseReturnStatementF (fuel : Nat) (p : Parser) : Option (Option Statement × Parser) :=
  let stmtToken := p.curToken
  match skipToSemicolonF fuel p.nextToken with
  | none => none
  | some p2 => some (some (Statement.returnStmt stmtToken Expression.nilExp), p2)

/-- parseExpressionStatement (src/parser/parser.go): parse one
expression at LOWEST, consume an optional trailing semicolon, always
yield the (possibly nil-expression) statement. -/
def parseExpressionStatementF (fuel : Nat) (p : Parser) : Option (Option Statement × Parser) :=
  let stmtToken := p.curToken
  match parseExpressionF fuel LOWEST p with
  | none => none
  | some (exp, p1) =>
    let p2 := if p1.peekTokenIs TokenType.SEMICOLON then p1.nextToken else p1
    some (some (Statement.exprStmt stmtToken exp), p2)

/-- parseStatement (src/parser/parser.go): dispatch on the current
token's kind. -/
def parseStatementF (fuel : Nat) (p : Parser) : Option (Option Statement × Parser) :=
  match p.curToken.type with
  | TokenType.LET => parseLetStatementF fuel p
  | TokenType.RETURN => parseReturnStatementF fuel p
  | _ => parseExpressionStatementF fuel p

/-- The ParseProgram loop (src/parser/parser.go): until the current
token is EOF, parse a statement, append it when non-nil, advance.  The
first fuel bounds the loop iterations, the second is handed to each
statement parse; none means some loop was still running. -/
def parseProgramLoopF : Nat → Nat → Parser → List Statement → Option (List Statement × Parser)
  | 0, _, p, acc => if p.curTokenIs TokenType.EOF then some (acc, p) else none
  | fuel + 1, innerFuel, p, acc =>
    if p.curTokenIs TokenType.EOF then some (acc, p)
    else
      (parseStatementF innerFuel p).bind
        (fun r =>
          let acc2 := match r.1 with
            | some stmt => acc ++ [stmt]
            | none => acc
          parseProgramLoopF fuel innerFuel r.2.nextToken acc2)

/-- ParseProgram (src/parser/parser.go), fuelled. -/
def ParseProgramF (fuel : Nat) (p : Parser) : Option (Program × Parser) :=
  (parseProgramLoopF fuel fuel p []).map (fun r => ({ Statements := r.1 }, r.2))

/-- n applications of Parser.nextToken. -/
def iterNext : Nat → Parser → Parser
  | 0, p => p
  | n + 1, p => iterNext n p.nextToken

/-- The cursor invariant of the lexer (spec §3): readPosition is one
ahead of position, and ch is the byte at position, or the NUL sentinel
once the cursor has passed the end of the input. -/
def lexWF (l : Lexer) : Prop :=
  l.readPosition = l.position + 1 ∧
  l.ch = (if l.position < l.input.length then l.input.getD l.position nulChar else nulChar)

/-- The cursor has consumed the whole input. -/
def pastEnd (l : Lexer) : Prop :=
  l.input.length ≤ l.position

/-- Stated from the spec's words (§4.2, C3): the base-10 value the digit
text denotes. -/
def specDecimalValue (s : List Char) : Nat :=
  s.foldl (fun a c => 10 * a + charVal c) 0

/-- Stated from the spec's words, for the octal reading: the base-8
value of a digit text. -/
def specOctalValue (s : List Char) : Nat :=
  s.foldl (fun a c => 8 * a + charVal c) 0

/-- ParseProgram never finishes on this input: every iteration budget is
exhausted with the Go loops still running. -/
def divergesOn (input : List Char) : Prop :=
  ∀ fuel, ParseProgramF fuel (Parser.New (Lexer.New input)) = none

/-! ### Lexer lemmas -/

theorem readChar_lexWF (l : Lexer) : lexWF l.readChar := by
  refine ⟨rfl, ?_⟩
  show (if l.input.length ≤ l.readPosition then nulChar
        else l.input.getD l.readPosition nulChar) =
    if l.readPosition < l.input.length then l.input.getD l.readPosition nulChar else nulChar
  by_cases h : l.input.length ≤ l.readPosition
  · rw [if_pos h, if_neg (by omega)]
  · rw [if_neg h, if_pos (by omega)]

theorem New_lexWF (input : List Char) : lexWF (Lexer.New input) :=
  readChar_lexWF _

theorem readChar_position (l : Lexer) (h : lexWF l) :
    (l.readChar).position = l.position + 1 := h.1

theorem readChar_input (l : Lexer) : (l.readChar).input = l.input := rfl

theorem readWhileGo_lexWF (p : Char → Bool) :
    ∀ fuel l, lexWF l → lexWF (readWhileGo p fuel l) := by
  intro fuel
  induction fuel with
  | zero => intro l h; exact h
  | succ n ih =>
    intro l h
    show lexWF (if p l.ch then readWhileGo p n l.readChar else l)
    by_cases hc : p l.ch
    · rw [if_pos hc]; exact ih _ (readChar_lexWF l)
    · rw [if_neg hc]; exact h

theorem readWhileGo_pos (p : Char → Bool) :
    ∀ fuel l, lexWF l → l.position ≤ (readWhileGo p fuel l).position := by
  intro fuel
  induction fuel with
  | zero => intro l _; exact Nat.le_refl _
  | succ n ih =>
    intro l h
    show l.position ≤ (if p l.ch then readWhileGo p n l.readChar else l).position
    by_cases hc : p l.ch
    · rw [if_pos hc]
      have h2 := ih l.readChar (readChar_lexWF l)
      have h3 := readChar_position l h
      omega
    · rw [if_neg hc]

theorem readWhileGo_input (p : Char → Bool) :
    ∀ fuel l, (readWhileGo p fuel l).input = l.input := by
  intro fuel
  induction fuel with
  | zero => intro l; rfl
  | succ n ih =>
    intro l
    show (if p l.ch then readWhileGo p n l.readChar else l).input = l.input
    by_cases hc : p l.ch
    · rw [if_pos hc]; exact ih l.readChar
    · rw [if_neg hc]

theorem readWhileGo_not (p : Char → Bool) (fuel : Nat) (l : Lexer)
    (h : p l.ch = false) : readWhileGo p fuel l = l := by
  cases fuel with
  | zero => rfl
  | succ n => show (if p l.ch then _ else l) = l; rw [h]; simp

theorem skipWhitespace_lexWF (l : Lexer) (h : lexWF l) : lexWF l.skipWhitespace :=
  readWhileGo_lexWF _ _ l h

theorem skipWhitespace_pos (l : Lexer) (h : lexWF l) :
    l.position ≤ l.skipWhitespace.position :=
  readWhileGo_pos _ _ l h

theorem skipWhitespace_input (l : Lexer) : l.skipWhitespace.input = l.input :=
  readWhileGo_input _ _ l

theorem lexWF_ch_pastEnd (l : Lexer) (h : lexWF l) (hp : pastEnd l) :
    l.ch = nulChar := by
  rw [h.2, if_neg (by exact Nat.not_lt.mpr hp)]

theorem skipWhitespace_pastEnd (l : Lexer) (h : lexWF l) (hp : pastEnd l) :
    l.skipWhitespace = l :=
  readWhileGo_not _ _ l (by rw [lexWF_ch_pastEnd l h hp]; rfl)

/-- The NUL sentinel hits only the EOF arm of the NextToken switch. -/
theorem nextTokenAt_nul (l : Lexer) (h : l.ch = nulChar) :
    nextTokenAt l = ({ type := TokenType.EOF, literal := [] }, l.readChar) := by
  unfold nextTokenAt
  rw [h]
  rw [if_neg (by decide), if_neg (by decide), if_neg (by decide), if_neg (by decide),
    if_neg (by decide), if_neg (by decide), if_neg (by decide), if_neg (by decide),
    if_pos rfl]

/-- Case analysis of the NextToken switch: either a one-byte arm that
ends in a single readChar (EOF only from the NUL sentinel), or the
identifier arm, or the number arm. -/
theorem nextTokenAt_split (l : Lexer) :
    ((nextTokenAt l).2 = l.readChar ∧
      ((nextTokenAt l).1.type = TokenType.EOF → l.ch = nulChar)) ∨
    (isLetter l.ch = true ∧
      nextTokenAt l =
        ({ type := LookupIdent (l.readIdentifier).1, literal := (l.readIdentifier).1 },
          (l.readIdentifier).2)) ∨
    (isDigit l.ch = true ∧
      nextTokenAt l =
        ({ type := TokenType.INT, literal := (l.readNumber).1 }, (l.readNumber).2)) := by
  unfold nextTokenAt
  by_cases h1 : l.ch = '='
  · rw [if_pos h1]; exact Or.inl ⟨rfl, fun he => nomatch he⟩
  rw [if_neg h1]
  by_cases h2 : l.ch = ';'
  · rw [if_pos h2]; exact Or.inl ⟨rfl, fun he => nomatch he⟩
  rw [if_neg h2]
  by_cases h3 : l.ch = '('
  · rw [if_pos h3]; exact Or.inl ⟨rfl, fun he => nomatch he⟩
  rw [if_neg h3]
  by_cases h4 : l.ch = ')'
  · rw [if_pos h4]; exact Or.inl ⟨rfl, fun he => nomatch he⟩
  rw [if_neg h4]
  by_cases h5 : l.ch = ','
  · rw [if_pos h5]; exact Or.inl ⟨rfl, fun he => nomatch he⟩
  rw [if_neg h5]
  by_cases h6 : l.ch = '+'
  · rw [if_pos h6]; exact Or.inl ⟨rfl, fun he => nomatch he⟩
  rw [if_neg h6]
  by_cases h7 : l.ch = '{'
  · rw [if_pos h7]; exact Or.inl ⟨rfl, fun he => nomatch he⟩
  rw [if_neg h7]
  by_cases h8 : l.ch = '}'
  · rw [if_pos h8]; exact Or.inl ⟨rfl, fun he => nomatch he⟩
  rw [if_neg h8]
  by_cases h9 : l.ch = nulChar
  · rw [if_pos h9]; exact Or.inl ⟨rfl, fun _ => h9⟩
  rw [if_neg h9]
  by_cases h10 : isLetter l.ch = true
  · rw [if_pos h10]; exact Or.inr (Or.inl ⟨h10, rfl⟩)
  rw [if_neg h10]
  by_cases h11 : isDigit l.ch = true
  · rw [if_pos h11]; exact Or.inr (Or.inr ⟨h11, rfl⟩)
  rw [if_neg h11]
  exact Or.inl ⟨rfl, fun he => nomatch he⟩

theorem nextTokenAt_lexWF (l : Lexer) (h : lexWF l) : lexWF (nextTokenAt l).2 := by
  rcases nextTokenAt_split l with ⟨heq, _⟩ | ⟨_, heq⟩ | ⟨_, heq⟩
  · rw [heq]; exact readChar_lexWF l
  · rw [heq]; exact readWhileGo_lexWF _ _ l h
  · rw [heq]; exact readWhileGo_lexWF _ _ l h

theorem nextTokenAt_input (l : Lexer) : (nextTokenAt l).2.input = l.input := by
  rcases nextTokenAt_split l with ⟨heq, _⟩ | ⟨_, heq⟩ | ⟨_, heq⟩
  · rw [heq]; rfl
  · rw [heq]; exact readWhileGo_input _ _ l
  · rw [heq]; exact readWhileGo_input _ _ l

/-- If the guard holds now, the loop runs at least one readChar, so the
position strictly advances (the guard rejecting NUL keeps the fuel
positive). -/
theorem readWhileGo_pos_succ (p : Char → Bool) (l : Lexer) (h : lexWF l)
    (hc : p l.ch = true) (hnul : p nulChar = false) :
    l.position + 1 ≤ (readWhileGo p (l.input.length + 1 - l.readPosition) l).position := by
  have hch : l.ch ≠ nulChar := by
    intro e
    rw [e, hnul] at hc
    exact Bool.noConfusion hc
  have hpos : l.position < l.input.length := by
    by_contra hle
    exact hch (lexWF_ch_pastEnd l h (Nat.not_lt.mp hle))
  have hfuel : l.input.length + 1 - l.readPosition = (l.input.length - l.readPosition) + 1 := by
    have := h.1
    omega
  rw [hfuel]
  show l.position + 1 ≤
    (if p l.ch then readWhileGo p (l.input.length - l.readPosition) l.readChar else l).position
  rw [if_pos hc]
  have h2 := readWhileGo_pos p (l.input.length - l.readPosition) l.readChar (readChar_lexWF l)
  have h3 := readChar_position l h
  omega

theorem nextTokenAt_pos (l : Lexer) (h : lexWF l) :
    l.position + 1 ≤ (nextTokenAt l).2.position := by
  have hrc : l.position + 1 ≤ (l.readChar).position := Nat.le_of_eq (readChar_position l h).symm
  rcases nextTokenAt_split l with ⟨heq, _⟩ | ⟨hc, heq⟩ | ⟨hc, heq⟩
  · rw [heq]; exact hrc
  · rw [heq]; exact readWhileGo_pos_succ isLetter l h hc (by decide)
  · rw [heq]; exact readWhileGo_pos_succ isDigit l h hc (by decide)

theorem LookupIdent_ne_EOF (s : List Char) : LookupIdent s ≠ TokenType.EOF := by
  unfold LookupIdent
  repeat' split
  all_goals decide

/-- Only the NUL arm of the switch produces an EOF token. -/
theorem nextTokenAt_eof_ch (l : Lexer) (he : (nextTokenAt l).1.type = TokenType.EOF) :
    l.ch = nulChar := by
  rcases nextTokenAt_split l with ⟨_, himp⟩ | ⟨_, heq⟩ | ⟨_, heq⟩
  · exact himp he
  · rw [heq] at he
    exact absurd he (LookupIdent_ne_EOF _)
  · rw [heq] at he
    exact nomatch he

theorem list_getD_mem : ∀ (s : List Char) (n : Nat) (d : Char), n < s.length → s.getD n d ∈ s
  | a :: t, 0, _, _ => List.mem_cons_self a t
  | a :: t, n + 1, d, h =>
    List.mem_cons_of_mem a (list_getD_mem t n d (by simpa using h))

theorem NextToken_lexWF (l : Lexer) (h : lexWF l) : lexWF (l.NextToken).2 :=
  nextTokenAt_lexWF _ (skipWhitespace_lexWF l h)

theorem NextToken_input (l : Lexer) : (l.NextToken).2.input = l.input := by
  show (nextTokenAt l.skipWhitespace).2.input = l.input
  rw [nextTokenAt_input, skipWhitespace_input]

theorem NextToken_pos (l : Lexer) (h : lexWF l) :
    l.position + 1 ≤ (l.NextToken).2.position := by
  have h1 := skipWhitespace_pos l h
  have h2 := nextTokenAt_pos l.skipWhitespace (skipWhitespace_lexWF l h)
  show l.position + 1 ≤ (nextTokenAt l.skipWhitespace).2.position
  omega

/-- Past the end of input, NextToken returns the empty-literal EOF token
and keeps the cursor past the end: EOF is a stable absorbing state once
the input is truly consumed. -/
theorem NextToken_pastEnd (l : Lexer) (h : lexWF l) (hp : pastEnd l) :
    l.NextToken = ({ type := TokenType.EOF, literal := [] }, l.readChar) ∧
      pastEnd (l.NextToken).2 := by
  have hch := lexWF_ch_pastEnd l h hp
  have heq : l.NextToken = ({ type := TokenType.EOF, literal := [] }, l.readChar) := by
    show nextTokenAt l.skipWhitespace = _
    rw [skipWhitespace_pastEnd l h hp, nextTokenAt_nul l hch]
  refine ⟨heq, ?_⟩
  rw [heq]
  show l.readChar.input.length ≤ l.readChar.position
  rw [readChar_input]
  show l.input.length ≤ l.readPosition
  have := h.1
  unfold pastEnd at hp
  omega

/-- With no NUL byte in the input, an EOF answer can only come from the
cursor having passed the end, and leaves it past the end. -/
theorem NextToken_eof_pastEnd (l : Lexer) (h : lexWF l) (hnul : nulChar ∉ l.input)
    (he : (l.NextToken).1.type = TokenType.EOF) : pastEnd (l.NextToken).2 := by
  have h1 : lexWF l.skipWhitespace := skipWhitespace_lexWF l h
  have hch : l.skipWhitespace.ch = nulChar := nextTokenAt_eof_ch _ he
  have hp1 : pastEnd l.skipWhitespace := by
    by_contra hlt
    have hlt' : l.skipWhitespace.position < l.skipWhitespace.input.length :=
      Nat.not_le.mp hlt
    have : l.skipWhitespace.ch =
        l.skipWhitespace.input.getD l.skipWhitespace.position nulChar := by
      rw [h1.2, if_pos hlt']
    have hm : nulChar ∈ l.skipWhitespace.input := by
      rw [← hch, this]
      exact list_getD_mem _ _ _ hlt'
    rw [skipWhitespace_input] at hm
    exact hnul hm
  show pastEnd (nextTokenAt l.skipWhitespace).2
  rw [nextTokenAt_nul _ hch]
  show pastEnd (l.skipWhitespace.readChar)
  show l.skipWhitespace.readChar.input.length ≤ l.skipWhitespace.readChar.position
  rw [readChar_input]
  show l.skipWhitespace.input.length ≤ l.skipWhitespace.readPosition
  have := h1.1
  unfold pastEnd at hp1
  omega

theorem lexState_add (l : Lexer) (m : Nat) :
    ∀ n, lexState l (m + n) = lexState (lexState l m) n := by
  intro n
  induction n with
  | zero => rfl
  | succ k ih =>
    show lexState l (m + k + 1) = (lexState (lexState l m) k).NextToken.2
    rw [← ih]
    rfl

theorem lexState_lexWF (l : Lexer) (h : lexWF l) : ∀ n, lexWF (lexState l n) := by
  intro n
  induction n with
  | zero => exact h
  | succ k ih => exact NextToken_lexWF _ ih

theorem lexState_input (l : Lexer) : ∀ n, (lexState l n).input = l.input := by
  intro n
  induction n with
  | zero => rfl
  | succ k ih =>
    show ((lexState l k).NextToken).2.input = l.input
    rw [NextToken_input]
    exact ih

theorem lexState_pos (l : Lexer) (h : lexWF l) :
    ∀ n, l.position + n ≤ (lexState l n).position := by
  intro n
  induction n with
  | zero => exact Nat.le_refl _
  | succ k ih =>
    have h2 := NextToken_pos (lexState l k) (lexState_lexWF l h k)
    show l.position + (k + 1) ≤ ((lexState l k).NextToken).2.position
    omega

/-- EOF absorption from any well-formed past-the-end state. -/
theorem absorb (l : Lexer) (h : lexWF l) (hp : pastEnd l) :
    ∀ k, nthTok l k = { type := TokenType.EOF, literal := [] } ∧
      lexWF (lexState l k) ∧ pastEnd (lexState l k) := by
  intro k
  induction k with
  | zero =>
    refine ⟨?_, h, hp⟩
    show (l.NextToken).1 = _
    rw [(NextToken_pastEnd l h hp).1]
  | succ n ih =>
    obtain ⟨_, hwf, hpe⟩ := ih
    have hstep := NextToken_pastEnd (lexState l n) hwf hpe
    refine ⟨?_, NextToken_lexWF _ hwf, hstep.2⟩
    show ((lexState l (n + 1)).NextToken).1 = _
    have : lexState l (n + 1) = (lexState l n).NextToken.2 := rfl
    rw [this, (NextToken_pastEnd _ (NextToken_lexWF _ hwf) hstep.2).1]

/-! ### Lexer claim theorems -/

/-- C8: after every lexer step — after New, after every readChar, and
after every NextToken from a well-formed state — the invariant
readPosition = position + 1 holds, and the current-character field is
the input byte at index position while position is within the input, or
the NUL sentinel 0 once the cursor has passed the end. -/
theorem C8_lexer_cursor_invariant :
    (∀ input : List Char, lexWF (Lexer.New input)) ∧
    (∀ l : Lexer, lexWF l.readChar) ∧
    (∀ l : Lexer, lexWF l → lexWF (l.NextToken).2) :=
  ⟨New_lexWF, readChar_lexWF, fun l h => NextToken_lexWF l h⟩

/-- C8 witness: the invariant, instantiated after one NextToken step on
the concrete input "let x = 5;". -/
theorem C8_witness : lexWF ((Lexer.New "let x = 5;".data).NextToken).2 :=
  C8_lexer_cursor_invariant.2.2 (Lexer.New "let x = 5;".data) ⟨rfl, rfl⟩

/-- C6: draining the lexer on "let x = 5;" produces exactly LET("let"),
IDENT("x"), ASSIGN("="), INT("5"), SEMICOLON(";"), then EOF(""). -/
theorem C6_tokenization_exact :
    takeTokens 6 (Lexer.New "let x = 5;".data) =
      [{ type := TokenType.LET, literal := "let".data },
       { type := TokenType.IDENT, literal := "x".data },
       { type := TokenType.ASSIGN, literal := "=".data },
       { type := TokenType.INT, literal := "5".data },
       { type := TokenType.SEMICOLON, literal := ";".data },
       { type := TokenType.EOF, literal := [] }] := by decide

/-- C4 (amended): for every input, the token at index input.length is
already the empty-literal EOF token (so EOF is reached after at most
input.length + 1 calls); and for inputs containing no NUL byte, once
some call returns EOF every later call returns EOF as well.  (The
original claim, quantified over all inputs, fails when the input itself
contains the NUL sentinel byte; see the counterexample.) -/
theorem C4_eof_reached_and_absorbing (input : List Char) :
    nthTok (Lexer.New input) input.length = { type := TokenType.EOF, literal := [] } ∧
    (nulChar ∉ input →
      ∀ m n : Nat, m ≤ n →
        (nthTok (Lexer.New input) m).type = TokenType.EOF →
        (nthTok (Lexer.New input) n).type = TokenType.EOF) := by
  constructor
  · have hwf := lexState_lexWF (Lexer.New input) (New_lexWF input) input.length
    have hpe : pastEnd (lexState (Lexer.New input) input.length) := by
      have h1 := lexState_pos (Lexer.New input) (New_lexWF input) input.length
      have h2 := lexState_input (Lexer.New input) input.length
      have h3 : (Lexer.New input).position = 0 := rfl
      have h4 : (Lexer.New input).input = input := rfl
      show (lexState (Lexer.New input) input.length).input.length ≤ _
      rw [h2, h4]
      omega
    exact congrArg Prod.fst (NextToken_pastEnd _ hwf hpe).1
  · intro hnul m n hmn he
    rcases eq_or_lt_of_le hmn with rfl | hlt
    · exact he
    · have hwfm := lexState_lexWF (Lexer.New input) (New_lexWF input) m
      have hnul2 : nulChar ∉ (lexState (Lexer.New input) m).input := by
        rw [lexState_input]
        exact hnul
      have hpe := NextToken_eof_pastEnd _ hwfm hnul2 he
      have hwfm1 := lexState_lexWF (Lexer.New input) (New_lexWF input) (m + 1)
      have habs := absorb (lexState (Lexer.New input) (m + 1)) hwfm1 hpe (n - m - 1)
      have hn : n = (m + 1) + (n - m - 1) := by omega
      have hsplit : nthTok (Lexer.New input) n =
          nthTok (lexState (Lexer.New input) (m + 1)) (n - m - 1) := by
        show ((lexState (Lexer.New input) n).NextToken).1 = _
        conv_lhs => rw [hn, lexState_add]
        rfl
      rw [hsplit, habs.1]

/-- C4 witness: the amended theorem applied to the NUL-free input "ab",
with the EOF at index 1 propagated to index 3. -/
theorem C4_witness : (nthTok (Lexer.New "ab".data) 3).type = TokenType.EOF :=
  (C4_eof_reached_and_absorbing "ab".data).2 (by decide) 1 3 (by decide) (by decide)

/-- C4 counterexample: on the input consisting of a NUL byte followed by
'a', the first call returns EOF and the second returns a non-EOF IDENT
token, so EOF is not an absorbing state for every input string. -/
theorem C4_counterexample :
    (nthTok (Lexer.New [nulChar, 'a']) 0).type = TokenType.EOF ∧
    (nthTok (Lexer.New [nulChar, 'a']) 1).type = TokenType.IDENT := by decide

/-! ### Parser unfolding equations -/

theorem parseExpressionF_succ (fuel prec : Nat) (p : Parser) :
    parseExpressionF (fuel + 1) prec p =
      match prefixParseFns p.curToken.type with
      | none => some (Expression.nilExp, p.noPrefixParseFnError p.curToken.type)
      | some PrefixFn.identFn => some p.parseIdentifier
      | some PrefixFn.intFn => some p.parseIntegerLiteral
      | some PrefixFn.preFn =>
        (parseExpressionF fuel PREFIX p.nextToken).map
          (fun r => (Expression.preOp p.curToken p.curToken.literal r.1, r.2)) := rfl

theorem skipToSemicolonF_succ (fuel : Nat) (p : Parser) :
    skipToSemicolonF (fuel + 1) p =
      if p.curTokenIs TokenType.SEMICOLON then some p
      else skipToSemicolonF fuel p.nextToken := rfl

theorem skipToSemicolonF_zero (p : Parser) :
    skipToSemicolonF 0 p =
      if p.curTokenIs TokenType.SEMICOLON then some p else none := rfl

theorem parseProgramLoopF_succ (fuel innerFuel : Nat) (p : Parser) (acc : List Statement) :
    parseProgramLoopF (fuel + 1) innerFuel p acc =
      if p.curTokenIs TokenType.EOF then some (acc, p)
      else
        (parseStatementF innerFuel p).bind
          (fun r =>
            parseProgramLoopF fuel innerFuel r.2.nextToken
              (match r.1 with
                | some stmt => acc ++ [stmt]
                | none => acc)) := rfl

theorem parseProgramLoopF_zero (innerFuel : Nat) (p : Parser) (acc : List Statement) :
    parseProgramLoopF 0 innerFuel p acc =
      if p.curTokenIs TokenType.EOF then some (acc, p) else none := rfl

/-! ### Error-list monotonicity: every parser operation either leaves
the diagnostics untouched or appends at the end. -/

theorem err_nextToken (p : Parser) : (p.nextToken).errors = p.errors := rfl

theorem err_iterNext : ∀ n (p : Parser), (iterNext n p).errors = p.errors := by
  intro n
  induction n with
  | zero => intro p; rfl
  | succ k ih =>
    intro p
    show (iterNext k p.nextToken).errors = p.errors
    rw [ih]
    rfl

theorem err_peekError (p : Parser) (t : TokenType) :
    (p.peekError t).errors = p.errors ++ [peekErrorMsg t p.peekToken.type] := rfl

theorem err_expectPeek (p : Parser) (t : TokenType) :
    p.errors <+: (p.expectPeek t).2.errors := by
  unfold Parser.expectPeek
  by_cases h : p.peekTokenIs t = true
  · rw [if_pos h]
    exact List.prefix_refl _
  · rw [if_neg h]
    exact ⟨[peekErrorMsg t p.peekToken.type], rfl⟩

theorem parseIntegerLiteral_some (p : Parser) (v : Int)
    (h : parseIntGoBase0 p.curToken.literal = some v) :
    p.parseIntegerLiteral = (Expression.intLit p.curToken v, p) := by
  simp only [Parser.parseIntegerLiteral, h]

theorem parseIntegerLiteral_none (p : Parser)
    (h : parseIntGoBase0 p.curToken.literal = none) :
    p.parseIntegerLiteral =
      (Expression.nilExp,
        { p with errors := p.errors ++ [couldNotParseMsg p.curToken.literal] }) := by
  simp only [Parser.parseIntegerLiteral, h]

theorem err_parseIntegerLiteral (p : Parser) :
    p.errors <+: (p.parseIntegerLiteral).2.errors := by
  cases hpi : parseIntGoBase0 p.curToken.literal with
  | none =>
    rw [parseIntegerLiteral_none p hpi]
    exact ⟨[couldNotParseMsg p.curToken.literal], rfl⟩
  | some v =>
    rw [parseIntegerLiteral_some p v hpi]

theorem err_parseExpressionF :
    ∀ fuel prec p r, parseExpressionF fuel prec p = some r → p.errors <+: r.2.errors := by
  intro fuel
  induction fuel with
  | zero =>
    intro prec p r h
    exact absurd h (by simp [parseExpressionF])
  | succ n ih =>
    intro prec p r h
    rw [parseExpressionF_succ] at h
    cases hf : prefixParseFns p.curToken.type with
    | none =>
      rw [hf] at h
      injection h with h1
      rw [← h1]
      exact ⟨[noPrefixMsg p.curToken.type], rfl⟩
    | some fn =>
      cases fn with
      | identFn =>
        rw [hf] at h
        injection h with h1
        rw [← h1]
        exact List.prefix_refl _
      | intFn =>
        rw [hf] at h
        injection h with h1
        rw [← h1]
        exact err_parseIntegerLiteral p
      | preFn =>
        rw [hf] at h
        rcases Option.map_eq_some'.mp h with ⟨r', hr', hfr⟩
        have h2 := ih PREFIX p.nextToken r' hr'
        rw [err_nextToken] at h2
        rw [← hfr]
        exact h2

theorem err_skipToSemicolonF :
    ∀ fuel p q, skipToSemicolonF fuel p = some q → q.errors = p.errors := by
  intro fuel
  induction fuel with
  | zero =>
    intro p q h
    rw [skipToSemicolonF_zero] at h
    by_cases hc : p.curTokenIs TokenType.SEMICOLON = true
    · rw [if_pos hc] at h
      injection h with h1
      rw [← h1]
    · rw [if_neg hc] at h
      exact absurd h (by simp)
  | succ n ih =>
    intro p q h
    rw [skipToSemicolonF_succ] at h
    by_cases hc : p.curTokenIs TokenType.SEMICOLON = true
    · rw [if_pos hc] at h
      injection h with h1
      rw [← h1]
    · rw [if_neg hc] at h
      rw [ih p.nextToken q h]
      rfl

theorem parseLetStatementF_noIdent (fuel : Nat) (p p1 : Parser)
    (h1 : p.expectPeek TokenType.IDENT = (false, p1)) :
    parseLetStatementF fuel p = some (none, p1) := by
  simp only [parseLetStatementF, h1]

theorem parseLetStatementF_noAssign (fuel : Nat) (p p1 p2 : Parser)
    (h1 : p.expectPeek TokenType.IDENT = (true, p1))
    (h2 : p1.expectPeek TokenType.ASSIGN = (false, p2)) :
    parseLetStatementF fuel p = some (none, p2) := by
  simp only [parseLetStatementF, h1, h2]

theorem parseLetStatementF_skipNone (fuel : Nat) (p p1 p2 : Parser)
    (h1 : p.expectPeek TokenType.IDENT = (true, p1))
    (h2 : p1.expectPeek TokenType.ASSIGN = (true, p2))
    (h3 : skipToSemicolonF fuel p2 = none) :
    parseLetStatementF fuel p = none := by
  simp only [parseLetStatementF, h1, h2, h3]

theorem parseLetStatementF_skipSome (fuel : Nat) (p p1 p2 p3 : Parser)
    (h1 : p.expectPeek TokenType.IDENT = (true, p1))
    (h2 : p1.expectPeek TokenType.ASSIGN = (true, p2))
    (h3 : skipToSemicolonF fuel p2 = some p3) :
    parseLetStatementF fuel p =
      some (some (Statement.letStmt p.curToken (p1.curToken, p1.curToken.literal)
        Expression.nilExp), p3) := by
  simp only [parseLetStatementF, h1, h2, h3]

theorem parseReturnStatementF_skipNone (fuel : Nat) (p : Parser)
    (h : skipToSemicolonF fuel p.nextToken = none) :
    parseReturnStatementF fuel p = none := by
  simp only [parseReturnStatementF, h]

theorem parseReturnStatementF_skipSome (fuel : Nat) (p p2 : Parser)
    (h : skipToSemicolonF fuel p.nextToken = some p2) :
    parseReturnStatementF fuel p =
      some (some (Statement.returnStmt p.curToken Expression.nilExp), p2) := by
  simp only [parseReturnStatementF, h]

theorem parseExpressionStatementF_none (fuel : Nat) (p : Parser)
    (h : parseExpressionF fuel LOWEST p = none) :
    parseExpressionStatementF fuel p = none := by
  simp only [parseExpressionStatementF, h]

theorem parseExpressionStatementF_some (fuel : Nat) (p p1 : Parser) (e : Expression)
    (h : parseExpressionF fuel LOWEST p = some (e, p1)) :
    parseExpressionStatementF fuel p =
      some (some (Statement.exprStmt p.curToken e),
        if p1.peekTokenIs TokenType.SEMICOLON then p1.nextToken else p1) := by
  simp only [parseExpressionStatementF, h]

theorem err_parseLetStatementF (fuel : Nat) (p : Parser) (r : Option Statement × Parser)
    (h : parseLetStatementF fuel p = some r) : p.errors <+: r.2.errors := by
  cases h1 : p.expectPeek TokenType.IDENT with
  | mk b1 p1 =>
    have hpre1 : p.errors <+: p1.errors := by
      have hp := err_expectPeek p TokenType.IDENT
      rw [h1] at hp
      exact hp
    cases b1 with
    | false =>
      rw [parseLetStatementF_noIdent fuel p p1 h1] at h
      injection h with h2
      rw [← h2]
      exact hpre1
    | true =>
      cases h2 : p1.expectPeek TokenType.ASSIGN with
      | mk b2 p2 =>
        have hpre2 : p1.errors <+: p2.errors := by
          have hp := err_expectPeek p1 TokenType.ASSIGN
          rw [h2] at hp
          exact hp
        cases b2 with
        | false =>
          rw [parseLetStatementF_noAssign fuel p p1 p2 h1 h2] at h
          injection h with h3
          rw [← h3]
          exact hpre1.trans hpre2
        | true =>
          cases h3 : skipToSemicolonF fuel p2 with
          | none =>
            rw [parseLetStatementF_skipNone fuel p p1 p2 h1 h2 h3] at h
            exact absurd h (by simp)
          | some p3 =>
            rw [parseLetStatementF_skipSome fuel p p1 p2 p3 h1 h2 h3] at h
            injection h with h4
            rw [← h4]
            show p.errors <+: p3.errors
            rw [err_skipToSemicolonF fuel p2 p3 h3]
            exact hpre1.trans hpre2

theorem err_parseReturnStatementF (fuel : Nat) (p : Parser) (r : Option Statement × Parser)
    (h : parseReturnStatementF fuel p = some r) : p.errors <+: r.2.errors := by
  cases h1 : skipToSemicolonF fuel p.nextToken with
  | none =>
    rw [parseReturnStatementF_skipNone fuel p h1] at h
    exact absurd h (by simp)
  | some p2 =>
    rw [parseReturnStatementF_skipSome fuel p p2 h1] at h
    injection h with h2
    rw [← h2]
    show p.errors <+: p2.errors
    rw [err_skipToSemicolonF fuel p.nextToken p2 h1, err_nextToken]

theorem err_parseExpressionStatementF (fuel : Nat) (p : Parser) (r : Option Statement × Parser)
    (h : parseExpressionStatementF fuel p = some r) : p.errors <+: r.2.errors := by
  cases h1 : parseExpressionF fuel LOWEST p with
  | none =>
    rw [parseExpressionStatementF_none fuel p h1] at h
    exact absurd h (by simp)
  | some r1 =>
    have hpre : p.errors <+: r1.2.errors := err_parseExpressionF fuel LOWEST p r1 h1
    have h1e : parseExpressionF fuel LOWEST p = some (r1.1, r1.2) := h1
    rw [parseExpressionStatementF_some fuel p r1.2 r1.1 h1e] at h
    injection h with h2
    rw [← h2]
    by_cases hc : r1.2.peekTokenIs TokenType.SEMICOLON = true
    · show p.errors <+:
        (if r1.2.peekTokenIs TokenType.SEMICOLON then r1.2.nextToken else r1.2).errors
      rw [if_pos hc, err_nextToken]
      exact hpre
    · show p.errors <+:
        (if r1.2.peekTokenIs TokenType.SEMICOLON then r1.2.nextToken else r1.2).errors
      rw [if_neg hc]
      exact hpre

theorem err_parseStatementF (fuel : Nat) (p : Parser) (r : Option Statement × Parser)
    (h : parseStatementF fuel p = some r) : p.errors <+: r.2.errors := by
  unfold parseStatementF at h
  cases hc : p.curToken.type
  all_goals rw [hc] at h
  all_goals first
    | exact err_parseLetStatementF fuel p r h
    | exact err_parseReturnStatementF fuel p r h
    | exact err_parseExpressionStatementF fuel p r h

theorem err_parseProgramLoopF :
    ∀ fuel innerFuel p acc stmts pF,
      parseProgramLoopF fuel innerFuel p acc = some (stmts, pF) →
      p.errors <+: pF.errors := by
  intro fuel
  induction fuel with
  | zero =>
    intro innerFuel p acc stmts pF h
    rw [parseProgramLoopF_zero] at h
    by_cases hc : p.curTokenIs TokenType.EOF = true
    · rw [if_pos hc] at h
      injection h with h1
      have : pF = p := congrArg Prod.snd h1.symm
      rw [this]
    · rw [if_neg hc] at h
      exact absurd h (by simp)
  | succ n ih =>
    intro innerFuel p acc stmts pF h
    rw [parseProgramLoopF_succ] at h
    by_cases hc : p.curTokenIs TokenType.EOF = true
    · rw [if_pos hc] at h
      injection h with h1
      have : pF = p := congrArg Prod.snd h1.symm
      rw [this]
    · rw [if_neg hc] at h
      cases h1 : parseStatementF innerFuel p with
      | none =>
        rw [h1] at h
        exact absurd h (by simp)
      | some r =>
        rw [h1] at h
        have hpre := err_parseStatementF innerFuel p r h1
        have h2 := ih innerFuel r.2.nextToken _ stmts pF h
        rw [err_nextToken] at h2
        exact hpre.trans h2

/-! ### Statement-dispatch equations -/

theorem parseStatementF_let (fuel : Nat) (p : Parser)
    (h : p.curToken.type = TokenType.LET) :
    parseStatementF fuel p = parseLetStatementF fuel p := by
  unfold parseStatementF
  rw [h]

theorem parseStatementF_return (fuel : Nat) (p : Parser)
    (h : p.curToken.type = TokenType.RETURN) :
    parseStatementF fuel p = parseReturnStatementF fuel p := by
  unfold parseStatementF
  rw [h]

theorem parseStatementF_default (fuel : Nat) (p : Parser)
    (h1 : p.curToken.type ≠ TokenType.LET) (h2 : p.curToken.type ≠ TokenType.RETURN) :
    parseStatementF fuel p = parseExpressionStatementF fuel p := by
  unfold parseStatementF
  cases hc : p.curToken.type
  all_goals first
    | rfl
    | exact absurd hc h1
    | exact absurd hc h2

/-! ### Parser claim theorems -/

/-- C5: for every parser state and token kind k, expectPeek(k) advances
the token window and returns true exactly when the peek token's kind is
k; otherwise it returns false, leaves curToken and peekToken unchanged,
and appends exactly one diagnostic of the form
"expected next token to be k, got actual instead". -/
theorem C5_expectPeek_contract (p : Parser) (t : TokenType) :
    (p.peekToken.type = t → p.expectPeek t = (true, p.nextToken)) ∧
    (p.peekToken.type ≠ t →
      (p.expectPeek t).1 = false ∧
      (p.expectPeek t).2.curToken = p.curToken ∧
      (p.expectPeek t).2.peekToken = p.peekToken ∧
      (p.expectPeek t).2.errors = p.errors ++ [peekErrorMsg t p.peekToken.type]) := by
  constructor
  · intro h
    have hb : p.peekTokenIs t = true := by
      simp [Parser.peekTokenIs, h]
    unfold Parser.expectPeek
    rw [if_pos hb]
  · intro h
    have hb : p.peekTokenIs t = false := by
      simp only [Parser.peekTokenIs, beq_eq_false_iff_ne, ne_eq]
      exact h
    have hnb : ¬ (p.peekTokenIs t = true) := by
      rw [hb]
      decide
    unfold Parser.expectPeek
    rw [if_neg hnb]
    exact ⟨rfl, rfl, rfl, rfl⟩

/-- C5 witness: on the parser primed with "let x = 5;" (cur LET, peek
IDENT), expectPeek IDENT advances and succeeds while expectPeek
SEMICOLON fails. -/
theorem C5_witness :
    (Parser.New (Lexer.New "let x = 5;".data)).expectPeek TokenType.IDENT =
      (true, (Parser.New (Lexer.New "let x = 5;".data)).nextToken) ∧
    ((Parser.New (Lexer.New "let x = 5;".data)).expectPeek TokenType.SEMICOLON).1 = false :=
  ⟨(C5_expectPeek_contract _ TokenType.IDENT).1 (by decide),
   ((C5_expectPeek_contract _ TokenType.SEMICOLON).2 (by decide)).1⟩

/-- C10: the diagnostics list is append-only: nextToken, peekError,
noPrefixParseFnError, expectPeek, the two literal parsers, expression
parsing, statement parsing and the ParseProgram loop each either leave
the errors sequence unchanged or extend it at the end (the old sequence
stays a prefix, so nothing is removed, reordered or rewritten), and
Errors() returns exactly the accumulated sequence. -/
theorem C10_errors_append_only :
    (∀ p : Parser, (p.nextToken).errors = p.errors) ∧
    (∀ (p : Parser) (t : TokenType),
      (p.peekError t).errors = p.errors ++ [peekErrorMsg t p.peekToken.type]) ∧
    (∀ (p : Parser) (t : TokenType),
      (p.noPrefixParseFnError t).errors = p.errors ++ [noPrefixMsg t]) ∧
    (∀ (p : Parser) (t : TokenType), p.errors <+: (p.expectPeek t).2.errors) ∧
    (∀ p : Parser, (p.parseIdentifier).2.errors = p.errors) ∧
    (∀ p : Parser, p.errors <+: (p.parseIntegerLiteral).2.errors) ∧
    (∀ (fuel prec : Nat) (p : Parser) r,
      parseExpressionF fuel prec p = some r → p.errors <+: r.2.errors) ∧
    (∀ (fuel : Nat) (p : Parser) r,
      parseStatementF fuel p = some r → p.errors <+: r.2.errors) ∧
    (∀ (fuel innerFuel : Nat) (p : Parser) acc stmts pF,
      parseProgramLoopF fuel innerFuel p acc = some (stmts, pF) → p.errors <+: pF.errors) ∧
    (∀ p : Parser, p.Errors = p.errors) :=
  ⟨err_nextToken, err_peekError, fun _ _ => rfl, err_expectPeek, fun _ => rfl,
    err_parseIntegerLiteral, err_parseExpressionF, err_parseStatementF,
    fun fuel innerFuel p acc stmts pF h => err_parseProgramLoopF fuel innerFuel p acc stmts pF h,
    fun _ => rfl⟩

/-- C10 witness: the prefix property of the whole ParseProgram loop,
instantiated on "let 5;" (which records one diagnostic). -/
theorem C10_witness :
    (Parser.New (Lexer.New "let 5;".data)).errors <+:
      ((Parser.New (Lexer.New "let 5;".data)).peekError TokenType.IDENT).errors :=
  C10_errors_append_only.2.2.2.2.2.2.2.2.1 5 5
    (Parser.New (Lexer.New "let 5;".data)) []
    [Statement.exprStmt { type := TokenType.INT, literal := "5".data }
      (Expression.intLit { type := TokenType.INT, literal := "5".data } 5)]
    (((Parser.New (Lexer.New "let 5;".data)).peekError TokenType.IDENT).nextToken.nextToken.nextToken)
    (by decide)

/-- C2: when a statement-parse attempt yields no statement node, the
ParseProgram loop appends nothing to the statement sequence for that
attempt and simply continues after one nextToken, while every diagnostic
recorded during the attempt remains in the final error list. -/
theorem C2_nil_statement_dropped (fuel innerFuel : Nat) (p p' : Parser)
    (acc : List Statement)
    (hne : p.curTokenIs TokenType.EOF = false)
    (h : parseStatementF innerFuel p = some (none, p')) :
    parseProgramLoopF (fuel + 1) innerFuel p acc =
      parseProgramLoopF fuel innerFuel p'.nextToken acc ∧
    (∀ stmts pF, parseProgramLoopF (fuel + 1) innerFuel p acc = some (stmts, pF) →
      p'.errors <+: pF.errors) := by
  have heq : parseProgramLoopF (fuel + 1) innerFuel p acc =
      parseProgramLoopF fuel innerFuel p'.nextToken acc := by
    rw [parseProgramLoopF_succ, if_neg (by rw [hne]; decide), h]
    rfl
  refine ⟨heq, ?_⟩
  intro stmts pF hsome
  rw [heq] at hsome
  have h2 := err_parseProgramLoopF fuel innerFuel p'.nextToken acc stmts pF hsome
  rw [err_nextToken] at h2
  exact h2

/-- C2 witness: parsing "let 5;", the let attempt fails at expectPeek
IDENT and yields no node; the loop continues from the recorded-error
state without appending. -/
theorem C2_witness :
    parseProgramLoopF 6 5 (Parser.New (Lexer.New "let 5;".data)) [] =
      parseProgramLoopF 5 5
        ((Parser.New (Lexer.New "let 5;".data)).peekError TokenType.IDENT).nextToken [] :=
  (C2_nil_statement_dropped 5 5 (Parser.New (Lexer.New "let 5;".data))
    ((Parser.New (Lexer.New "let 5;".data)).peekError TokenType.IDENT) []
    (by decide) (by decide)).1

/-- C9: for a current token that is not LET, RETURN or EOF, if it has no
registered prefix handler, or it is an INT token whose literal fails
integer conversion, parseExpressionStatement still yields a non-nil
ExpressionStatement whose expression is nil, exactly one diagnostic is
recorded, and the ParseProgram loop appends that nil-expression
statement to the Program's statement sequence. -/
theorem C9_nil_expression_statement_appended (fuel innerFuel : Nat) (p : Parser)
    (acc : List Statement)
    (hlet : p.curToken.type ≠ TokenType.LET)
    (hret : p.curToken.type ≠ TokenType.RETURN)
    (heof : p.curToken.type ≠ TokenType.EOF)
    (hfail : prefixParseFns p.curToken.type = none ∨
      (p.curToken.type = TokenType.INT ∧ parseIntGoBase0 p.curToken.literal = none)) :
    ∃ p' msg,
      parseStatementF (innerFuel + 1) p =
        some (some (Statement.exprStmt p.curToken Expression.nilExp), p') ∧
      p'.errors = p.errors ++ [msg] ∧
      parseProgramLoopF (fuel + 1) (innerFuel + 1) p acc =
        parseProgramLoopF fuel (innerFuel + 1) p'.nextToken
          (acc ++ [Statement.exprStmt p.curToken Expression.nilExp]) := by
  have hcont : ∀ perr msg,
      parseExpressionF (innerFuel + 1) LOWEST p = some (Expression.nilExp, perr) →
      perr.errors = p.errors ++ [msg] →
      ∃ p' m,
        parseStatementF (innerFuel + 1) p =
          some (some (Statement.exprStmt p.curToken Expression.nilExp), p') ∧
        p'.errors = p.errors ++ [m] ∧
        parseProgramLoopF (fuel + 1) (innerFuel + 1) p acc =
          parseProgramLoopF fuel (innerFuel + 1) p'.nextToken
            (acc ++ [Statement.exprStmt p.curToken Expression.nilExp]) := by
    intro perr msg hpe herr
    have hstmt : parseStatementF (innerFuel + 1) p =
        some (some (Statement.exprStmt p.curToken Expression.nilExp),
          if perr.peekTokenIs TokenType.SEMICOLON then perr.nextToken else perr) := by
      rw [parseStatementF_default _ p hlet hret]
      exact parseExpressionStatementF_some _ p perr Expression.nilExp hpe
    have herr2 :
        (if perr.peekTokenIs TokenType.SEMICOLON then perr.nextToken else perr).errors =
          p.errors ++ [msg] := by
      by_cases hs : perr.peekTokenIs TokenType.SEMICOLON = true
      · rw [if_pos hs, err_nextToken, herr]
      · rw [if_neg hs, herr]
    refine ⟨_, msg, hstmt, herr2, ?_⟩
    have hEOF : ¬ (p.curTokenIs TokenType.EOF = true) := by
      simp only [Parser.curTokenIs, beq_iff_eq]
      exact heof
    rw [parseProgramLoopF_succ, if_neg hEOF, hstmt]
    rfl
  rcases hfail with hf | ⟨hint, hconv⟩
  · apply hcont (p.noPrefixParseFnError p.curToken.type) (noPrefixMsg p.curToken.type)
    · rw [parseExpressionF_succ, hf]
    · rfl
  · apply hcont ({ p with errors := p.errors ++ [couldNotParseMsg p.curToken.literal] })
      (couldNotParseMsg p.curToken.literal)
    · have hfn : prefixParseFns p.curToken.type = some PrefixFn.intFn := by
        rw [hint]
        rfl
      simp only [parseExpressionF_succ, hfn, parseIntegerLiteral_none p hconv]
    · rfl

/-- C9 witness: on the input "+" (PLUS has no registered prefix
handler), the nil-expression statement is produced and appended. -/
theorem C9_witness :
    ∃ p' msg,
      parseStatementF 3 (Parser.New (Lexer.New "+".data)) =
        some (some (Statement.exprStmt (Parser.New (Lexer.New "+".data)).curToken
          Expression.nilExp), p') ∧
      p'.errors = (Parser.New (Lexer.New "+".data)).errors ++ [msg] ∧
      parseProgramLoopF 3 3 (Parser.New (Lexer.New "+".data)) [] =
        parseProgramLoopF 2 3 p'.nextToken
          ([] ++ [Statement.exprStmt (Parser.New (Lexer.New "+".data)).curToken
            Expression.nilExp]) :=
  C9_nil_expression_statement_appended 2 2 (Parser.New (Lexer.New "+".data)) []
    (by decide) (by decide) (by decide) (Or.inl (by decide))

/-- C7 (amended): when the current token is BANG or MINUS the parser
builds a PrefixExpression whose Operator is that token's literal,
advances one token and parses the operand at PREFIX precedence, so a
token window holding MINUS, MINUS, INT yields the nested
PrefixExpression around the integer literal.  (The source text "--5"
itself does not reach this code path: the lexer has no '-' case and
emits ILLEGAL tokens for it — see the counterexample.) -/
theorem C7_prefix_expression_nesting (p : Parser) (prec fuel : Nat) (v : Int)
    (h1 : p.curToken.type = TokenType.MINUS ∨ p.curToken.type = TokenType.BANG)
    (h2 : p.peekToken.type = TokenType.MINUS ∨ p.peekToken.type = TokenType.BANG)
    (h3 : p.nextToken.nextToken.curToken.type = TokenType.INT)
    (h4 : parseIntGoBase0 p.nextToken.nextToken.curToken.literal = some v) :
    parseExpressionF (fuel + 3) prec p =
      some (Expression.preOp p.curToken p.curToken.literal
        (Expression.preOp p.peekToken p.peekToken.literal
          (Expression.intLit p.nextToken.nextToken.curToken v)),
        p.nextToken.nextToken) := by
  have hf3 : prefixParseFns p.nextToken.nextToken.curToken.type = some PrefixFn.intFn := by
    rw [h3]
    rfl
  have e3 : parseExpressionF (fuel + 1) PREFIX p.nextToken.nextToken =
      some (Expression.intLit p.nextToken.nextToken.curToken v, p.nextToken.nextToken) := by
    simp only [parseExpressionF_succ, hf3,
      parseIntegerLiteral_some p.nextToken.nextToken v h4]
  have hf2 : prefixParseFns p.nextToken.curToken.type = some PrefixFn.preFn := by
    show prefixParseFns p.peekToken.type = some PrefixFn.preFn
    rcases h2 with h | h
    · rw [h]
      rfl
    · rw [h]
      rfl
  have e2 : parseExpressionF (fuel + 2) PREFIX p.nextToken =
      some (Expression.preOp p.peekToken p.peekToken.literal
        (Expression.intLit p.nextToken.nextToken.curToken v),
        p.nextToken.nextToken) := by
    show parseExpressionF ((fuel + 1) + 1) PREFIX p.nextToken = _
    rw [parseExpressionF_succ (fuel + 1) PREFIX p.nextToken]
    simp only [hf2, e3, Option.map_some']
    rfl
  have hf1 : prefixParseFns p.curToken.type = some PrefixFn.preFn := by
    rcases h1 with h | h
    · rw [h]
      rfl
    · rw [h]
      rfl
  show parseExpressionF ((fuel + 2) + 1) prec p = _
  rw [parseExpressionF_succ (fuel + 2) prec p]
  simp only [hf1, e2, Option.map_some']

/-- C7 witness: the theorem applied to a parser state whose token window
is MINUS, MINUS over a lexer holding "5", producing the nested
PrefixExpression around IntegerLiteral 5. -/
theorem C7_witness :
    parseExpressionF 3 LOWEST
      { l := Lexer.New "5".data, errors := [],
        curToken := { type := TokenType.MINUS, literal := "-".data },
        peekToken := { type := TokenType.MINUS, literal := "-".data } } =
      some (Expression.preOp { type := TokenType.MINUS, literal := "-".data } "-".data
        (Expression.preOp { type := TokenType.MINUS, literal := "-".data } "-".data
          (Expression.intLit { type := TokenType.INT, literal := "5".data } 5)),
        ({ l := Lexer.New "5".data, errors := [],
           curToken := { type := TokenType.MINUS, literal := "-".data },
           peekToken := { type := TokenType.MINUS, literal := "-".data } } :
             Parser).nextToken.nextToken) :=
  C7_prefix_expression_nesting
    { l := Lexer.New "5".data, errors := [],
      curToken := { type := TokenType.MINUS, literal := "-".data },
      peekToken := { type := TokenType.MINUS, literal := "-".data } }
    LOWEST 0 5 (Or.inl rfl) (Or.inl rfl) (by decide) (by decide)

/-- C7 counterexample: the lexer has no MINUS case, so "--5" lexes as
ILLEGAL, ILLEGAL, INT, EOF, and parsing "--5" end to end produces three
expression statements — two with nil expressions and one integer
literal — and no PrefixExpression at all, refuting the claim that the
input "--5" parses as a nested PrefixExpression. -/
theorem C7_counterexample :
    takeTokens 4 (Lexer.New "--5".data) =
      [{ type := TokenType.ILLEGAL, literal := "-".data },
       { type := TokenType.ILLEGAL, literal := "-".data },
       { type := TokenType.INT, literal := "5".data },
       { type := TokenType.EOF, literal := [] }] ∧
    (ParseProgramF 10 (Parser.New (Lexer.New "--5".data))).map (fun r => r.1) =
      some { Statements := [
        Statement.exprStmt { type := TokenType.ILLEGAL, literal := "-".data }
          Expression.nilExp,
        Statement.exprStmt { type := TokenType.ILLEGAL, literal := "-".data }
          Expression.nilExp,
        Statement.exprStmt { type := TokenType.INT, literal := "5".data }
          (Expression.intLit { type := TokenType.INT, literal := "5".data } 5)] } := by
  decide

/-! ### Skip-to-semicolon termination (C1) -/

/-- From a state whose token window holds only EOF and whose lexer is
exhausted, the skip-to-semicolon loop never exits: it only ever sees EOF
tokens, and EOF is never SEMICOLON. -/
theorem skip_stuck : ∀ (fuel : Nat) (p : Parser),
    p.curToken.type = TokenType.EOF → p.peekToken.type = TokenType.EOF →
    p.l.ch = nulChar → p.l.input.length ≤ p.l.readPosition →
    skipToSemicolonF fuel p = none := by
  intro fuel
  induction fuel with
  | zero =>
    intro p h1 _ _ _
    rw [skipToSemicolonF_zero, if_neg]
    intro hc
    rw [Parser.curTokenIs, h1] at hc
    exact absurd hc (by decide)
  | succ m ih =>
    intro p h1 h2 h3 h4
    have hsw : p.l.skipWhitespace = p.l := readWhileGo_not _ _ p.l (by rw [h3]; rfl)
    have hnt : p.l.NextToken = ({ type := TokenType.EOF, literal := [] }, p.l.readChar) := by
      show nextTokenAt p.l.skipWhitespace = _
      rw [hsw, nextTokenAt_nul p.l h3]
    rw [skipToSemicolonF_succ, if_neg]
    · apply ih
      · exact h2
      · show ((p.l.NextToken).1).type = TokenType.EOF
        rw [hnt]
      · show ((p.l.NextToken).2).ch = nulChar
        rw [hnt]
        show (if p.l.input.length ≤ p.l.readPosition then nulChar else _) = nulChar
        rw [if_pos h4]
      · show ((p.l.NextToken).2).input.length ≤ ((p.l.NextToken).2).readPosition
        rw [hnt]
        show p.l.input.length ≤ p.l.readPosition + 1
        omega
    · intro hc
      rw [Parser.curTokenIs, h1] at hc
      exact absurd hc (by decide)

/-- On "let x = 5" (no terminating semicolon) the let-statement skip
loop never finds a SEMICOLON, whatever the iteration budget. -/
theorem skipNone_let_x_5 : ∀ fuel,
    skipToSemicolonF fuel
      ((((Parser.New (Lexer.New "let x = 5".data)).expectPeek
        TokenType.IDENT).2.expectPeek TokenType.ASSIGN).2) = none := by
  intro fuel
  cases fuel with
  | zero => decide
  | succ m =>
    cases m with
    | zero => decide
    | succ n =>
      rw [skipToSemicolonF_succ, if_neg (by decide),
        skipToSemicolonF_succ, if_neg (by decide)]
      exact skip_stuck n _ (by decide) (by decide) (by decide) (by decide)

/-- C1 counterexample: ParseProgram does not terminate on the finite
input "let x = 5": for every iteration budget the skip-to-semicolon
loop inside parseLetStatement is still running. -/
theorem C1_counterexample : divergesOn "let x = 5".data := by
  intro fuel
  suffices h : parseProgramLoopF fuel fuel (Parser.New (Lexer.New "let x = 5".data)) [] =
      none by
    unfold ParseProgramF
    rw [h]
    rfl
  cases fuel with
  | zero => decide
  | succ n =>
    rw [parseProgramLoopF_succ, if_neg (by decide),
      parseStatementF_let (n + 1) _ (by decide),
      parseLetStatementF_skipNone (n + 1) _
        ((Parser.New (Lexer.New "let x = 5".data)).expectPeek TokenType.IDENT).2
        ((((Parser.New (Lexer.New "let x = 5".data)).expectPeek
          TokenType.IDENT).2.expectPeek TokenType.ASSIGN).2)
        (by decide) (by decide) (skipNone_let_x_5 (n + 1))]
    rfl

/-- C1 (amended): the skip-to-semicolon scan terminates within a given
iteration budget exactly when some token reachable from the current one
within that budget is a SEMICOLON; with an unterminated let- or
return-statement no such token exists — the absorbing EOF token is never
SEMICOLON — and the scan (hence ParseProgram) runs forever. -/
theorem C1_skip_terminates_iff : ∀ (fuel : Nat) (p : Parser),
    (∃ q, skipToSemicolonF fuel p = some q) ↔
    (∃ n, n ≤ fuel ∧ (iterNext n p).curToken.type = TokenType.SEMICOLON) := by
  intro fuel
  induction fuel with
  | zero =>
    intro p
    constructor
    · intro ⟨q, hq⟩
      rw [skipToSemicolonF_zero] at hq
      by_cases hc : p.curTokenIs TokenType.SEMICOLON = true
      · refine ⟨0, Nat.le_refl 0, ?_⟩
        rw [Parser.curTokenIs, beq_iff_eq] at hc
        exact hc
      · rw [if_neg hc] at hq
        exact absurd hq (by simp)
    · intro ⟨n, hn, hsemi⟩
      have hn0 : n = 0 := Nat.le_zero.mp hn
      subst hn0
      have hc : p.curTokenIs TokenType.SEMICOLON = true := by
        rw [Parser.curTokenIs, beq_iff_eq]
        exact hsemi
      exact ⟨p, by rw [skipToSemicolonF_zero, if_pos hc]⟩
  | succ m ih =>
    intro p
    constructor
    · intro ⟨q, hq⟩
      rw [skipToSemicolonF_succ] at hq
      by_cases hc : p.curTokenIs TokenType.SEMICOLON = true
      · refine ⟨0, Nat.zero_le _, ?_⟩
        rw [Parser.curTokenIs, beq_iff_eq] at hc
        exact hc
      · rw [if_neg hc] at hq
        obtain ⟨n, hn, hsemi⟩ := (ih p.nextToken).mp ⟨q, hq⟩
        exact ⟨n + 1, by omega, hsemi⟩
    · intro ⟨n, hn, hsemi⟩
      by_cases hc : p.curTokenIs TokenType.SEMICOLON = true
      · exact ⟨p, by rw [skipToSemicolonF_succ, if_pos hc]⟩
      · cases n with
        | zero =>
          exact absurd (by rw [Parser.curTokenIs, beq_iff_eq]; exact hsemi) hc
        | succ k =>
          obtain ⟨q, hq⟩ := (ih p.nextToken).mpr ⟨k, by omega, hsemi⟩
          exact ⟨q, by rw [skipToSemicolonF_succ, if_neg hc]; exact hq⟩

/-- C1 witness: on "let x = 5;" the semicolon token is reached at the
fifth token window, so the skip scan terminates with budget 4 — and so
does the whole ParseProgram. -/
theorem C1_witness :
    (∃ q, skipToSemicolonF 4 (Parser.New (Lexer.New "let x = 5;".data)) = some q) ∧
    ParseProgramF 9 (Parser.New (Lexer.New "let x = 5;".data)) =
      some ({ Statements := [Statement.letStmt { type := TokenType.LET, literal := "let".data }
        ({ type := TokenType.IDENT, literal := "x".data }, "x".data) Expression.nilExp] },
        (iterNext 5 (Parser.New (Lexer.New "let x = 5;".data)))) :=
  ⟨(C1_skip_terminates_iff 4 (Parser.New (Lexer.New "let x = 5;".data))).mpr
    ⟨4, by decide, by decide⟩, by decide⟩

/-! ### Integer-literal parsing (C3) -/

theorem isDigit_charVal_lt10 (c : Char) (h : isDigit c = true) : charVal c < 10 := by
  simp only [isDigit, Bool.and_eq_true, decide_eq_true_eq] at h
  have h0 : Char.toNat '0' = 48 := rfl
  have h9 : Char.toNat '9' = 57 := rfl
  unfold charVal
  omega

theorem digitsVal_all_lt (b : Nat) : ∀ (s : List Char) (acc : Nat),
    (∀ c ∈ s, charVal c < b) →
    digitsVal b s acc = some (s.foldl (fun a c => b * a + charVal c) acc) := by
  intro s
  induction s with
  | nil =>
    intro acc _
    rfl
  | cons c t ih =>
    intro acc h
    show (if charVal c < b then digitsVal b t (b * acc + charVal c) else none) = _
    rw [if_pos (h c (List.mem_cons_self c t)),
      ih _ (fun x hx => h x (List.mem_cons_of_mem c hx))]
    rfl

theorem digitsVal_exists_ge (b : Nat) : ∀ (s : List Char) (acc : Nat),
    (∃ c ∈ s, b ≤ charVal c) → digitsVal b s acc = none := by
  intro s
  induction s with
  | nil =>
    intro acc h
    obtain ⟨c, hc, _⟩ := h
    exact absurd hc (List.not_mem_nil c)
  | cons c t ih =>
    intro acc h
    show (if charVal c < b then digitsVal b t (b * acc + charVal c) else none) = none
    by_cases hc : charVal c < b
    · rw [if_pos hc]
      obtain ⟨x, hx, hge⟩ := h
      rcases List.mem_cons.mp hx with rfl | hxt
      · omega
      · exact ih _ ⟨x, hxt, hge⟩
    · rw [if_neg hc]

theorem parseIntGoBase0_cons (c : Char) (t : List Char)
    (hd : (c :: t).all isDigit = true) :
    parseIntGoBase0 (c :: t) =
      (if c = '0' then
        (if t.isEmpty then some 0
         else (digitsVal 8 t 0).bind
           (fun v => if v ≤ 2 ^ 63 - 1 then some (Int.ofNat v) else none))
      else
        (digitsVal 10 (c :: t) 0).bind
          (fun v => if v ≤ 2 ^ 63 - 1 then some (Int.ofNat v) else none)) := by
  unfold parseIntGoBase0
  rw [if_neg (by simp), if_pos hd]

/-- C3 (amended): parseIntegerLiteral runs Go's ParseInt with base
argument 0, not fixed base 10.  For an all-digit INT literal: the
literal "0" yields IntegerLiteral 0; a literal not starting with '0' is
read as base 10, yielding an IntegerLiteral with its decimal value when
that value fits in a signed 64-bit integer and the
"could not parse ... as integer" diagnostic with no node otherwise; but
a literal that starts with '0' and has further digits is read as base 8
— octal digit runs yield the octal (not decimal) value subject to the
same range check, and any digit 8 or 9 makes the literal malformed. -/
theorem C3_integer_literal_base0 (p : Parser)
    (hdig : p.curToken.literal.all isDigit = true) :
    (p.curToken.literal = ['0'] →
      p.parseIntegerLiteral = (Expression.intLit p.curToken 0, p)) ∧
    ((p.curToken.literal ≠ [] ∧ ∀ rest, p.curToken.literal ≠ '0' :: rest) →
      (specDecimalValue p.curToken.literal ≤ 2 ^ 63 - 1 →
        p.parseIntegerLiteral =
          (Expression.intLit p.curToken
            (Int.ofNat (specDecimalValue p.curToken.literal)), p)) ∧
      (2 ^ 63 - 1 < specDecimalValue p.curToken.literal →
        p.parseIntegerLiteral =
          (Expression.nilExp,
            { p with errors := p.errors ++ [couldNotParseMsg p.curToken.literal] }))) ∧
    (∀ rest, p.curToken.literal = '0' :: rest → rest ≠ [] →
      ((∀ c ∈ rest, charVal c < 8) →
        (specOctalValue rest ≤ 2 ^ 63 - 1 →
          p.parseIntegerLiteral =
            (Expression.intLit p.curToken (Int.ofNat (specOctalValue rest)), p)) ∧
        (2 ^ 63 - 1 < specOctalValue rest →
          p.parseIntegerLiteral =
            (Expression.nilExp,
              { p with errors := p.errors ++ [couldNotParseMsg p.curToken.literal] }))) ∧
      ((∃ c ∈ rest, 8 ≤ charVal c) →
        p.parseIntegerLiteral =
          (Expression.nilExp,
            { p with errors := p.errors ++ [couldNotParseMsg p.curToken.literal] }))) := by
  refine ⟨?_, ?_, ?_⟩
  · intro h0
    exact parseIntegerLiteral_some p 0 (by rw [h0]; decide)
  · intro ⟨hne, hnz⟩
    obtain ⟨c, t, hl⟩ := List.exists_cons_of_ne_nil hne
    have hd' : (c :: t).all isDigit = true := by
      rw [← hl]
      exact hdig
    have hc0 : c ≠ '0' := by
      intro he
      exact hnz t (by rw [hl, he])
    have h10 : ∀ x ∈ c :: t, charVal x < 10 := fun x hx =>
      isDigit_charVal_lt10 x (List.all_eq_true.mp hd' x hx)
    have hv : parseIntGoBase0 p.curToken.literal =
        (if specDecimalValue p.curToken.literal ≤ 2 ^ 63 - 1
          then some (Int.ofNat (specDecimalValue p.curToken.literal)) else none) := by
      rw [hl, parseIntGoBase0_cons c t hd', if_neg hc0,
        digitsVal_all_lt 10 (c :: t) 0 h10]
      rfl
    constructor
    · intro hle
      exact parseIntegerLiteral_some p _ (by rw [hv, if_pos hle])
    · intro hgt
      exact parseIntegerLiteral_none p (by rw [hv, if_neg (by omega)])
  · intro rest hl hrne
    have hd' : ('0' :: rest).all isDigit = true := by
      rw [← hl]
      exact hdig
    have hrne' : ¬ (rest.isEmpty = true) := by
      simp only [List.isEmpty_eq_true]
      exact hrne
    have hv0 : parseIntGoBase0 p.curToken.literal =
        (digitsVal 8 rest 0).bind
          (fun v => if v ≤ 2 ^ 63 - 1 then some (Int.ofNat v) else none) := by
      rw [hl, parseIntGoBase0_cons '0' rest hd', if_pos rfl, if_neg hrne']
    constructor
    · intro h8
      have hv : parseIntGoBase0 p.curToken.literal =
          (if specOctalValue rest ≤ 2 ^ 63 - 1
            then some (Int.ofNat (specOctalValue rest)) else none) := by
        rw [hv0, digitsVal_all_lt 8 rest 0 h8]
        rfl
      constructor
      · intro hle
        exact parseIntegerLiteral_some p _ (by rw [hv, if_pos hle])
      · intro hgt
        exact parseIntegerLiteral_none p (by rw [hv, if_neg (by omega)])
    · intro hex
      exact parseIntegerLiteral_none p (by rw [hv0, digitsVal_exists_ge 8 rest 0 hex]; rfl)

/-- C3 witness: the amended theorem applied to the INT token "7" (no
leading zero): IntegerLiteral with the decimal value 7. -/
theorem C3_witness :
    (Parser.New (Lexer.New "7".data)).parseIntegerLiteral =
      (Expression.intLit (Parser.New (Lexer.New "7".data)).curToken
        (Int.ofNat (specDecimalValue (Parser.New (Lexer.New "7".data)).curToken.literal)),
        Parser.New (Lexer.New "7".data)) :=
  ((C3_integer_literal_base0 (Parser.New (Lexer.New "7".data)) (by decide)).2.1
    ⟨by decide, by
      intro rest h
      have h2 : (['7'] : List Char) = '0' :: rest := h
      injection h2 with h3 _
      exact absurd h3 (by decide)⟩).1 (by decide)

/-- C3 counterexample: the INT token "010" carries digit text denoting
the decimal value 10, well within the int64 range, yet
parseIntegerLiteral produces an IntegerLiteral node holding 8 (octal
reading of ParseInt with base argument 0), not 10. -/
theorem C3_counterexample :
    specDecimalValue "010".data = 10 ∧
    (Parser.New (Lexer.New "010".data)).curToken =
      { type := TokenType.INT, literal := "010".data } ∧
    (Parser.New (Lexer.New "010".data)).parseIntegerLiteral =
      (Expression.intLit { type := TokenType.INT, literal := "010".data } 8,
        Parser.New (Lexer.New "010".data)) := by
  decide

end monkey
